import Mathlib

/-!
Verification of the `Archiver` component of `tar_backup_tools` (`archiver.py`).

The program archives a file or a directory tree into a tar container,
reporting progress after each written entry and completion at the end.
We give a shallow embedding of the code over an explicit filesystem-tree
model and prove the specified properties about it.

Modelling conventions, each translated from the source:
* A filesystem entry is a tree (`FSTree`).  A file carries its byte content
  (`stat().st_size` is its length) and a `readable` flag modelling whether
  reading it during the write pass succeeds.  A directory carries the size
  that `stat().st_size` reports for it (on real filesystems this is not 0)
  and its children.
* `Path.rglob("*")` on a directory is `FSTree.entries`: every descendant
  entry, in a deterministic pre-order, paired with its path relative to the
  source directory (as a list of components).
* Python callback values are `PyVal`: `none`, or an object with a Python
  truthiness and a `callable` answer (e.g. the integer 0 is a non-`None`
  value that is falsy and not callable).
* `tarfile.open(dest, "w")` either succeeds (creating/truncating the
  destination) or raises; `Dest.openable` models whether it succeeds
  (false e.g. when the destination parent directory does not exist).
* `tar.add(path, arcname)` with the default `recursive=True` adds the named
  entry and then, recursively, all entries beneath it (arcnames joined
  under `arcname`); it raises as soon as an entry cannot be read, leaving
  the previously produced entries in the container (`addSeq`).
* An `archive()` run is a pure function returning the emitted event trace
  (clock reads, the two counting traversals, container open/close, entry
  additions, callback invocations), the destination container content,
  an `IOError` indicator, the final values of the `files_added` and
  `bytes_written` locals, and the instance state after the call.
* `time.time()` results are supplied as the two inputs `t0`, `t1` consumed
  by the two clock reads of a run.
-/

namespace TarBackup

/-- A filesystem tree.  `file name content readable` is a regular file whose
byte content is `content`; `readable` tells whether reading it during the
write pass succeeds.  `dir name statSize children` is a directory; `statSize`
is what `stat().st_size` reports for the directory itself. -/
inductive FSTree where
  | file (name : String) (content : List Nat) (readable : Bool)
  | dir (name : String) (statSize : Nat) (children : List FSTree)

/-- The final path component of an entry (`Path.name`). -/
def FSTree.name : FSTree → String
  | .file n _ _ => n
  | .dir n _ _ => n

/-- `stat().st_size` of an entry: a file reports its byte length, a directory
reports the filesystem-dependent size stored in the model. -/
def FSTree.stSize : FSTree → Nat
  | .file _ c _ => c.length
  | .dir _ s _ => s

/-- All descendants of the members of a directory listing, each paired with
its path (component list) relative to the listed directory.  This is the
deterministic pre-order enumeration modelling `Path.rglob("*")`. -/
def entriesList : List FSTree → List (List String × FSTree)
  | [] => []
  | FSTree.file n c r :: rest =>
      ([n], FSTree.file n c r) :: entriesList rest
  | FSTree.dir n s gs :: rest =>
      ([n], FSTree.dir n s gs)
        :: ((entriesList gs).map (fun pe => (n :: pe.1, pe.2)) ++ entriesList rest)

/-- `Path.rglob("*")` on an entry: every strict descendant with its relative
path.  A file has no descendants. -/
def FSTree.entries : FSTree → List (List String × FSTree)
  | .file _ _ _ => []
  | .dir _ _ cs => entriesList cs

/-- Whether adding this single entry to the tar succeeds: reading a file
requires its `readable` flag; writing a directory header always succeeds. -/
def selfOk : FSTree → Bool
  | .file _ _ r => r
  | .dir _ _ _ => true

/-- Every entry reachable from the source is readable: the write pass over
this source raises no `IOError`.  (The claims' "tree unmodified during the
run" with no permission errors.) -/
def treeOk (t : FSTree) : Bool := t.entries.all fun pe => selfOk pe.2

/-- A whole run on this source succeeds: a file source must be readable, a
directory source must have an all-readable tree. -/
def sourceOk : FSTree → Bool
  | .file _ _ r => r
  | .dir n s cs => treeOk (FSTree.dir n s cs)

/-- What a tar entry stores besides its name: a directory header, or a file
with its byte content. -/
inductive TarData where
  | dirEntry
  | fileEntry (content : List Nat)
deriving DecidableEq

/-- One entry of the tar container: archive-internal name (path components)
and stored data. -/
abbrev TarEntry := List String × TarData

/-- The tar data stored for a filesystem entry. -/
def FSTree.data : FSTree → TarData
  | .file _ c _ => .fileEntry c
  | .dir _ _ _ => .dirEntry

/-- A Python value in a callback position: `none` models `None`; `obj`
carries the value's truthiness, whether `callable()` holds of it, and an
identity tag.  E.g. the integer `0` is `obj false false i`, a function is
`obj true true i`. -/
inductive PyVal where
  | none
  | obj (truthy : Bool) (callableAnswer : Bool) (id : Nat)
deriving DecidableEq

/-- Python truthiness of a callback value (`None` is falsy). -/
def PyVal.truthy : PyVal → Bool
  | .none => false
  | .obj t _ _ => t

/-- The `callable()` builtin on a callback value. -/
def PyVal.invocable : PyVal → Bool
  | .none => false
  | .obj _ c _ => c

/-- The destination path: its (resolved) textual form, and whether
`tarfile.open(destination, "w")` succeeds on it — false when e.g. its
parent directory does not exist. -/
structure Dest where
  text : String
  openable : Bool
deriving DecidableEq

/-- The destination derived by `self.source.with_suffix(".tar")` when no
destination is supplied: a sibling of the existing source, so opening it
for writing succeeds.  (The exact suffix rewriting of the text is not
load-bearing for any claim and is kept as a plain rename.) -/
def default_destination (src : FSTree) : Dest :=
  { text := src.name ++ ".tar", openable := true }

/-- Errors `__init__` can raise: `TypeError` for a truthy non-callable
callback value (the spec's `InvalidArgument`), `FileNotFoundError` for a
missing source (the spec's `NotFound`). -/
inductive InitError where
  | typeError
  | fileNotFound
deriving DecidableEq

/-- The error `archive()` can raise: `OSError`/`IOError`, both on failing to
open the destination and on failing to read/add an entry. -/
inductive RunError where
  | ioError
deriving DecidableEq

/-- The `Archiver` instance state: the resolved source snapshot, the
resolved destination, and the two construction-time callbacks. -/
structure Archiver where
  source : FSTree
  destination : Dest
  progress_callback : PyVal
  completed_callback : PyVal

/-- `Archiver.__init__`, translated from the source.  The `source` argument
is the result of resolving the given path: `none` when the resolved path
does not exist (the `not self.source.exists()` branch).  The str/Path type
dispatch on `source` is identity in the model.  The constructor performs no
filesystem write, so it is a pure function of its arguments.  Note the
callback validation tests Python truthiness (`if progress_callback and not
callable(progress_callback)`), not `is not None`. -/
def Archiver.init (source : Option FSTree) (destination : Option Dest)
    (progress_callback completed_callback : PyVal) : Except InitError Archiver :=
  match source with
  | Option.none => .error .fileNotFound
  | some src =>
    if progress_callback.truthy && !progress_callback.invocable then
      .error .typeError
    else if completed_callback.truthy && !completed_callback.invocable then
      .error .typeError
    else
      .ok { source := src
            destination := destination.getD (default_destination src)
            progress_callback := progress_callback
            completed_callback := completed_callback }

/-- `self.total_files`: number of `rglob` results for a directory source,
`1` for a file source. -/
def Archiver.total_files (a : Archiver) : Nat :=
  match a.source with
  | .dir _ _ cs => (entriesList cs).length
  | .file _ _ _ => 1

/-- `self.total_bytes`: sum of `stat().st_size` over the `rglob` results for
a directory source, the file's `st_size` for a file source. -/
def Archiver.total_bytes (a : Archiver) : Nat :=
  match a.source with
  | .dir _ _ cs => ((entriesList cs).map (fun pe => pe.2.stSize)).sum
  | .file _ c _ => c.length

/-- One observable step of an `archive()` run: the two `time.time()` reads,
the two counting traversals, container open/close, one entry written into
the container, and the two callback invocations with their arguments. -/
inductive Event where
  | clockRead (t : Int)
  | queryTotalFiles
  | queryTotalBytes
  | openTar
  | addEntry (arcname : List String) (data : TarData)
  | progressCall (files_added bytes_written total_files total_bytes : Nat)
  | completedCall (total_files total_bytes : Nat) (elapsed : Int)
  | closeTar
deriving DecidableEq

/-- Whether an event is a progress-callback invocation. -/
def Event.isProgress : Event → Bool
  | .progressCall _ _ _ _ => true
  | _ => false

/-- Whether an event is a completion-callback invocation. -/
def Event.isCompleted : Event → Bool
  | .completedCall _ _ _ => true
  | _ => false

/-- Number of progress-callback invocations in a trace. -/
def countProgress (evs : List Event) : Nat := evs.countP (fun e => e.isProgress)

/-- Number of completion-callback invocations in a trace. -/
def countCompleted (evs : List Event) : Nat := evs.countP (fun e => e.isCompleted)

/-- The entries a single `tar.add(path, arcname)` call intends to write, in
order: the named entry itself, then (default `recursive=True`) every
descendant, its arcname joined under `arcname`. -/
def addPlan (arcname : List String) (e : FSTree) : List (List String × FSTree) :=
  (arcname, e) :: e.entries.map (fun pe => (arcname ++ pe.1, pe.2))

/-- Sequentially writing planned entries into the container: each readable
entry is stored; the first unreadable file aborts, keeping what was already
stored and reporting failure (`tar.add` raising `OSError`). -/
def addSeq : List (List String × FSTree) → List TarEntry × Bool
  | [] => ([], true)
  | (arc, e) :: rest =>
    match e with
    | .file _ c r =>
      if r then
        let tail := addSeq rest
        (((arc, TarData.fileEntry c) :: tail.1), tail.2)
      else ([], false)
    | .dir _ _ _ =>
      let tail := addSeq rest
      (((arc, TarData.dirEntry) :: tail.1), tail.2)

/-- Name-and-data view of a planned entry, as stored in the container. -/
def dataize (su : List String × FSTree) : TarEntry := (su.1, su.2.data)

/-- The mutable local state of the write loop of `archive()`: the event
trace so far, the container content so far, and the `files_added` and
`bytes_written` locals. -/
structure LoopState where
  events : List Event
  written : List TarEntry
  files_added : Nat
  bytes_written : Nat

/-- The `for file in self.source.rglob("*")` loop of `archive()`.  Each
iteration runs `tar.add(file, arcname=...)` (recursively adding the whole
subtree of the entry), then increments `files_added`, adds the entry's own
`st_size` to `bytes_written`, and invokes the progress callback if it is
truthy.  A failing `tar.add` aborts the loop with the increments and the
progress call of that iteration skipped. -/
def archiveLoop (pc : PyVal) (tf tb : Nat) :
    List (List String × FSTree) → LoopState → LoopState × Bool
  | [], st => (st, true)
  | it :: rest, st =>
    let r := addSeq (addPlan it.1 it.2)
    let st1 : LoopState :=
      { st with
        events := st.events ++ r.1.map (fun su => Event.addEntry su.1 su.2)
        written := st.written ++ r.1 }
    if r.2 then
      archiveLoop pc tf tb rest
        { st1 with
          files_added := st.files_added + 1
          bytes_written := st.bytes_written + it.2.stSize
          events := st1.events ++
            (if pc.truthy then
              [Event.progressCall (st.files_added + 1)
                (st.bytes_written + it.2.stSize) tf tb]
            else []) }
    else (st1, false)

/-- The outcome of one `archive()` invocation: the event trace, the
destination container content (`none` when opening the destination failed
before creating it), the raised error if any, the final values of the
`files_added` and `bytes_written` locals, and the instance state after the
call returns. -/
structure RunResult where
  events : List Event
  dest : Option (List TarEntry)
  err : Option RunError
  files_added : Nat
  bytes_written : Nat
  state : Archiver

/-- Python `x or y` on callback values: the first operand when it is
truthy, the second otherwise.  `archive()` uses it to let per-call callback
arguments override the construction-time ones. -/
def effectiveCb (given stored : PyVal) : PyVal :=
  if given.truthy then given else stored

/-- The iteration items of the directory write loop: each `rglob` result of
the source directory, with the arcname `file.relative_to(self.source.parent)`
— the relative path prefixed by the source directory's own name. -/
def dirItems (nm : String) (cs : List FSTree) : List (List String × FSTree) :=
  (entriesList cs).map (fun pe => (nm :: pe.1, pe.2))

/-- `Archiver.archive(progress_callback, completed_callback)`, translated
from the source.  Per-call callback arguments override the construction-time
ones via Python `or` (first operand wins when truthy); `start = time.time()`
is read, then `self.total_files` and `self.total_bytes` each run their own
traversal, then the destination is opened as a fresh tar container inside a
`with` block (so it is closed on every exit path), the write pass runs, and
after the block `end = time.time()` is read and the completion callback, if
truthy, is invoked with `(total_files, total_bytes, end - start)`. -/
def Archiver.archive (a : Archiver) (progress_cb completed_cb : PyVal)
    (t0 t1 : Int) : RunResult :=
  let pc := effectiveCb progress_cb a.progress_callback
  let cc := effectiveCb completed_cb a.completed_callback
  let tf := a.total_files
  let tb := a.total_bytes
  let ev0 : List Event := [.clockRead t0, .queryTotalFiles, .queryTotalBytes]
  if a.destination.openable then
    let ev1 : List Event :=
      [.clockRead t0, .queryTotalFiles, .queryTotalBytes, .openTar]
    match a.source with
    | .dir nm _ cs =>
      let r := archiveLoop pc tf tb (dirItems nm cs) ⟨ev1, [], 0, 0⟩
      if r.2 then
        { events := r.1.events ++ [.closeTar, .clockRead t1] ++
            (if cc.truthy then [.completedCall tf tb (t1 - t0)] else [])
          dest := some r.1.written
          err := Option.none
          files_added := r.1.files_added
          bytes_written := r.1.bytes_written
          state := a }
      else
        { events := r.1.events ++ [.closeTar]
          dest := some r.1.written
          err := some .ioError
          files_added := r.1.files_added
          bytes_written := r.1.bytes_written
          state := a }
    | .file nm c r =>
      if r then
        { events := ev1 ++ [.addEntry [nm] (.fileEntry c)] ++
            (if pc.truthy then [.progressCall 1 0 tf tb] else []) ++
            [.closeTar, .clockRead t1] ++
            (if cc.truthy then [.completedCall tf tb (t1 - t0)] else [])
          dest := some [([nm], .fileEntry c)]
          err := Option.none
          files_added := 1
          bytes_written := 0
          state := a }
      else
        { events := ev1 ++ [.closeTar]
          dest := some []
          err := some .ioError
          files_added := 0
          bytes_written := 0
          state := a }
  else
    { events := ev0
      dest := Option.none
      err := some .ioError
      files_added := 0
      bytes_written := 0
      state := a }

/-- Refinement comparison only — `total_bytes` as the spec's words state it:
"the sum of byte sizes of all entries found by a fresh recursive traversal
(directories contribute 0)".  To be diffed against `Archiver.total_bytes`,
which is translated from the code. -/
def specWordsEntrySize : FSTree → Nat
  | .file _ c _ => c.length
  | .dir _ _ _ => 0

/-- Refinement comparison only — the spec-words total-bytes query (see
`specWordsEntrySize`): a file source reports its own size, a directory
source sums entry sizes with directories contributing 0. -/
def specWordsTotalBytes (src : FSTree) : Nat :=
  match src with
  | .file _ c _ => c.length
  | .dir _ _ cs => ((entriesList cs).map (fun pe => specWordsEntrySize pe.2)).sum

/-- Whether an event is a `time.time()` read. -/
def Event.isClock : Event → Bool
  | .clockRead _ => true
  | _ => false

/-- Whether an event is the opening of the destination container. -/
def Event.isOpen : Event → Bool
  | .openTar => true
  | _ => false

/-- Whether a trace contains a clock read immediately before the container
is opened, i.e. whether the elapsed-time measurement starts just before the
write pass begins. -/
def startJustBeforeOpen (evs : List Event) : Bool :=
  (evs.zip evs.tail).any (fun pr => pr.1.isClock && pr.2.isOpen)

/-- A single loop iteration succeeds: its own entry and every entry of its
subtree is readable, so `tar.add` on it succeeds. -/
def planOk (it : List String × FSTree) : Bool :=
  selfOk it.2 && it.2.entries.all (fun pe => selfOk pe.2)

/-- A descendant of an entry of a listing is an entry of the listing, at the
concatenated relative path. -/
theorem entriesList_trans {q : List String} {f : FSTree} :
    ∀ (cs : List FSTree) (p : List String) (e : FSTree),
      (p, e) ∈ entriesList cs → (q, f) ∈ e.entries → (p ++ q, f) ∈ entriesList cs := by
  intro cs
  induction cs using entriesList.induct with
  | case1 =>
    intro p e h _
    simp [entriesList] at h
  | case2 n c r rest ih =>
    intro p e h hf
    simp only [entriesList, List.mem_cons] at h ⊢
    rcases h with h | h
    · simp only [Prod.mk.injEq] at h
      obtain ⟨rfl, rfl⟩ := h
      simp [FSTree.entries] at hf
    · exact Or.inr (ih p e h hf)
  | case3 n s gs rest ihg ihr =>
    intro p e h hf
    simp only [entriesList, List.mem_cons, List.mem_append, List.mem_map] at h ⊢
    rcases h with h | h | h
    · simp only [Prod.mk.injEq] at h
      obtain ⟨rfl, rfl⟩ := h
      simp only [FSTree.entries] at hf
      exact Or.inr (Or.inl ⟨(q, f), hf, rfl⟩)
    · obtain ⟨pe, hpe, hval⟩ := h
      simp only [Prod.mk.injEq] at hval
      obtain ⟨rfl, rfl⟩ := hval
      have := ihg pe.1 pe.2 hpe hf
      exact Or.inr (Or.inl ⟨(pe.1 ++ q, f), this, by simp⟩)
    · exact Or.inr (Or.inr (ihr p e h hf))

/-- `tar.add` on a plan succeeds exactly when every planned entry is
readable. -/
theorem addSeq_snd (l : List (List String × FSTree)) :
    (addSeq l).2 = l.all (fun su => selfOk su.2) := by
  induction l with
  | nil => rfl
  | cons su rest ih =>
    obtain ⟨arc, e⟩ := su
    cases e with
    | file nm c r => cases r <;> simp [addSeq, selfOk, ih]
    | dir nm s gs => simp [addSeq, selfOk, ih]

/-- A fully successful `tar.add` stores exactly the planned entries. -/
theorem addSeq_fst_ok (l : List (List String × FSTree))
    (h : l.all (fun su => selfOk su.2) = true) :
    (addSeq l).1 = l.map dataize := by
  induction l with
  | nil => rfl
  | cons su rest ih =>
    simp only [List.all_cons, Bool.and_eq_true] at h
    obtain ⟨arc, e⟩ := su
    cases e with
    | file nm c r =>
      simp only [selfOk] at h
      simp [addSeq, h.1, ih h.2, dataize, FSTree.data]
    | dir nm s gs => simp [addSeq, ih h.2, dataize, FSTree.data]

/-- Whatever `tar.add` stored — also on failure — comes from its plan. -/
theorem addSeq_fst_sub (l : List (List String × FSTree)) :
    ∀ t ∈ (addSeq l).1, ∃ su ∈ l, t = dataize su := by
  induction l with
  | nil => intro t ht; simp [addSeq] at ht
  | cons su rest ih =>
    intro t ht
    obtain ⟨arc, e⟩ := su
    cases e with
    | file nm c r =>
      cases r with
      | false => simp [addSeq] at ht
      | true =>
        simp [addSeq] at ht
        rcases ht with h | ht
        · exact ⟨(arc, .file nm c true), List.mem_cons_self .., h⟩
        · obtain ⟨su, hsu, hv⟩ := ih t ht
          exact ⟨su, List.mem_cons_of_mem _ hsu, hv⟩
    | dir nm s gs =>
      simp [addSeq] at ht
      rcases ht with h | ht
      · exact ⟨(arc, .dir nm s gs), List.mem_cons_self .., h⟩
      · obtain ⟨su, hsu, hv⟩ := ih t ht
        exact ⟨su, List.mem_cons_of_mem _ hsu, hv⟩

/-- The per-entry readability of a `tar.add` plan is the readability of the
added entry together with its whole subtree. -/
theorem addPlan_all (arc : List String) (e : FSTree) :
    (addPlan arc e).all (fun su => selfOk su.2) = planOk (arc, e) := by
  simp [addPlan, planOk, List.all_map, Function.comp_def]

/-- An all-readable source tree is exactly an all-successful write loop:
readability of every traversal entry equals per-iteration success of
`tar.add` (which also touches the entry's subtree, itself made of traversal
entries). -/
theorem treeOk_iff (nm : String) (s : Nat) (cs : List FSTree) :
    treeOk (FSTree.dir nm s cs) = true ↔
      ((entriesList cs).map (fun pe => (nm :: pe.1, pe.2))).all planOk = true := by
  simp only [treeOk, FSTree.entries, List.all_map, Function.comp, List.all_eq_true]
  constructor
  · intro h pe hpe
    simp only [planOk, Bool.and_eq_true]
    refine ⟨h pe hpe, ?_⟩
    simp only [List.all_eq_true]
    intro qf hqf
    obtain ⟨q1, f1⟩ := qf
    exact h (pe.1 ++ q1, f1) (entriesList_trans cs pe.1 pe.2 hpe hqf)
  · intro h pe hpe
    have hh := h pe hpe
    simp only [planOk, Bool.and_eq_true] at hh
    exact hh.1

/-- The events an all-successful write loop appends, starting from the given
values of the `files_added` and `bytes_written` locals. -/
def loopEvents (pc : PyVal) (tf tb : Nat) :
    Nat → Nat → List (List String × FSTree) → List Event
  | _, _, [] => []
  | fa, bw, it :: rest =>
      (addPlan it.1 it.2).map (fun su => Event.addEntry su.1 su.2.data)
        ++ (if pc.truthy then
              [Event.progressCall (fa + 1) (bw + it.2.stSize) tf tb]
            else [])
        ++ loopEvents pc tf tb (fa + 1) (bw + it.2.stSize) rest

/-- Closed form of an all-successful write loop: it writes every planned
entry of every iteration, counts one `files_added` per iteration, adds each
iteration entry's own `st_size` to `bytes_written`, and emits the add events
followed by one progress call per iteration when the progress callback is
truthy. -/
theorem archiveLoop_ok (pc : PyVal) (tf tb : Nat) :
    ∀ (items : List (List String × FSTree)) (st : LoopState),
      items.all planOk = true →
      archiveLoop pc tf tb items st =
        ({ events := st.events ++ loopEvents pc tf tb st.files_added st.bytes_written items
           written := st.written ++ items.flatMap (fun it => (addPlan it.1 it.2).map dataize)
           files_added := st.files_added + items.length
           bytes_written := st.bytes_written + (items.map (fun it => it.2.stSize)).sum }, true) := by
  intro items
  induction items with
  | nil => intro st h; cases st; simp [archiveLoop, loopEvents]
  | cons it rest ih =>
    intro st h
    simp only [List.all_cons, Bool.and_eq_true] at h
    obtain ⟨h1, h2⟩ := h
    have hsnd : (addSeq (addPlan it.1 it.2)).2 = true := by
      rw [addSeq_snd, addPlan_all]; exact h1
    have hfst : (addSeq (addPlan it.1 it.2)).1 = (addPlan it.1 it.2).map dataize := by
      apply addSeq_fst_ok; rw [addPlan_all]; exact h1
    simp only [archiveLoop, hsnd, hfst, if_true]
    rw [ih _ h2]
    simp [loopEvents, dataize, Function.comp_def, List.map_map,
      List.append_assoc, Nat.add_assoc, Nat.add_comm, Nat.add_left_comm]

/-- The write loop succeeds exactly when every iteration's `tar.add`
succeeds. -/
theorem archiveLoop_snd (pc : PyVal) (tf tb : Nat) :
    ∀ (items : List (List String × FSTree)) (st : LoopState),
      (archiveLoop pc tf tb items st).2 = items.all planOk := by
  intro items
  induction items with
  | nil => intro st; simp [archiveLoop]
  | cons it rest ih =>
    intro st
    have hsnd : (addSeq (addPlan it.1 it.2)).2 = planOk it := by
      rw [addSeq_snd]
      obtain ⟨arc, e⟩ := it
      exact addPlan_all arc e
    simp only [archiveLoop, hsnd, List.all_cons]
    cases hp : planOk it with
    | false => simp
    | true => simp [ih]

/-- The write loop makes no completion-callback invocation, on success or
failure. -/
theorem archiveLoop_countCompleted (pc : PyVal) (tf tb : Nat) :
    ∀ (items : List (List String × FSTree)) (st : LoopState),
      countCompleted (archiveLoop pc tf tb items st).1.events =
        countCompleted st.events := by
  intro items
  induction items with
  | nil => intro st; simp [archiveLoop]
  | cons it rest ih =>
    intro st
    simp only [archiveLoop]
    cases hsnd : (addSeq (addPlan it.1 it.2)).2 with
    | false =>
      simp only [hsnd, Bool.false_eq_true, if_false, countCompleted,
        List.countP_append, List.countP_map]
      have : ∀ su : List String × TarData,
          Event.isCompleted (Event.addEntry su.1 su.2) = false := fun _ => rfl
      simp [List.countP_eq_zero, Function.comp_def, this, Event.isCompleted]
    | true =>
      simp only [hsnd, if_true]
      rw [ih]
      simp only [countCompleted, List.countP_append, List.countP_map]
      have hz : ∀ su : List String × TarData,
          Event.isCompleted (Event.addEntry su.1 su.2) = false := fun _ => rfl
      cases hpc : pc.truthy <;>
        simp [Function.comp_def, hz, Event.isCompleted, List.countP_eq_zero]

/-- Everything the write loop stored — also on failure — comes from the plan
of one of its iterations. -/
theorem archiveLoop_written_sub (pc : PyVal) (tf tb : Nat) :
    ∀ (items : List (List String × FSTree)) (st : LoopState),
      ∀ t ∈ (archiveLoop pc tf tb items st).1.written,
        t ∈ st.written ∨ ∃ it ∈ items, ∃ su ∈ addPlan it.1 it.2, t = dataize su := by
  intro items
  induction items with
  | nil => intro st t ht; simp [archiveLoop] at ht; exact Or.inl ht
  | cons it rest ih =>
    intro st t ht
    simp only [archiveLoop] at ht
    cases hsnd : (addSeq (addPlan it.1 it.2)).2 with
    | false =>
      simp only [hsnd, Bool.false_eq_true, if_false, List.mem_append] at ht
      rcases ht with ht | ht
      · exact Or.inl ht
      · obtain ⟨su, hsu, hv⟩ := addSeq_fst_sub _ t ht
        exact Or.inr ⟨it, List.mem_cons_self .., su, hsu, hv⟩
    | true =>
      simp only [hsnd, if_true] at ht
      rcases ih _ t ht with ht | ⟨it2, hit2, su, hsu, hv⟩
      · simp only [List.mem_append] at ht
        rcases ht with ht | ht
        · exact Or.inl ht
        · obtain ⟨su, hsu, hv⟩ := addSeq_fst_sub _ t ht
          exact Or.inr ⟨it, List.mem_cons_self .., su, hsu, hv⟩
      · exact Or.inr ⟨it2, List.mem_cons_of_mem _ hit2, su, hsu, hv⟩

/-- Add events never count as a callback invocation, whatever the planned
entries were. -/
theorem countP_map_addPlanned (p : Event → Bool)
    (hp : ∀ arc d, p (Event.addEntry arc d) = false) :
    ∀ (l : List (List String × FSTree)),
      (l.map (fun su => Event.addEntry su.1 su.2.data)).countP p = 0 := by
  intro l
  induction l with
  | nil => rfl
  | cons a l ih => simp [List.countP_cons, hp, ih]

/-- Progress-call count of the all-successful loop events: one per
iteration when the progress callback is truthy, none otherwise. -/
theorem loopEvents_countProgress (pc : PyVal) (tf tb : Nat) :
    ∀ (items : List (List String × FSTree)) (fa bw : Nat),
      countProgress (loopEvents pc tf tb fa bw items) =
        if pc.truthy then items.length else 0 := by
  intro items
  induction items with
  | nil => intro fa bw; simp [loopEvents, countProgress]
  | cons it rest ih =>
    intro fa bw
    have htail := ih (fa + 1) (bw + it.2.stSize)
    simp only [countProgress] at htail ⊢
    rw [loopEvents, List.countP_append, List.countP_append, htail,
      countP_map_addPlanned _ (fun _ _ => rfl)]
    cases hpc : pc.truthy <;> simp [List.countP_cons, Event.isProgress]
    all_goals omega

/-- The all-successful loop events contain no completion call. -/
theorem loopEvents_countCompleted (pc : PyVal) (tf tb : Nat) :
    ∀ (items : List (List String × FSTree)) (fa bw : Nat),
      countCompleted (loopEvents pc tf tb fa bw items) = 0 := by
  intro items
  induction items with
  | nil => intro fa bw; simp [loopEvents, countCompleted]
  | cons it rest ih =>
    intro fa bw
    have htail := ih (fa + 1) (bw + it.2.stSize)
    simp only [countCompleted] at htail ⊢
    rw [loopEvents, List.countP_append, List.countP_append, htail,
      countP_map_addPlanned _ (fun _ _ => rfl)]
    cases hpc : pc.truthy <;> simp [List.countP_cons, Event.isCompleted]

/-- Progress-call counting distributes over trace concatenation. -/
theorem countProgress_append (x y : List Event) :
    countProgress (x ++ y) = countProgress x + countProgress y :=
  List.countP_append ..

/-- Completion-call counting distributes over trace concatenation. -/
theorem countCompleted_append (x y : List Event) :
    countCompleted (x ++ y) = countCompleted x + countCompleted y :=
  List.countP_append ..

/-- Every branch of `archive()` returns with the instance unchanged: the
method only rebinds its local variables. -/
theorem archive_state (a : Archiver) (pca cca : PyVal) (t0 t1 : Int) :
    (a.archive pca cca t0 t1).state = a := by
  unfold Archiver.archive
  split
  · split
    · dsimp only
      split <;> rfl
    · dsimp only
      split <;> rfl
  · rfl

/-- Closed form of a successful `archive()` run on a directory source whose
tree is entirely readable. -/
theorem archive_dir_ok_shape (nm : String) (s : Nat) (cs : List FSTree)
    (d : Dest) (pcv ccv pca cca : PyVal) (t0 t1 : Int)
    (hd : d.openable = true) (hok : treeOk (FSTree.dir nm s cs) = true) :
    Archiver.archive ⟨FSTree.dir nm s cs, d, pcv, ccv⟩ pca cca t0 t1 =
      { events :=
          [Event.clockRead t0, Event.queryTotalFiles, Event.queryTotalBytes,
            Event.openTar]
          ++ loopEvents (effectiveCb pca pcv)
              (Archiver.total_files ⟨FSTree.dir nm s cs, d, pcv, ccv⟩)
              (Archiver.total_bytes ⟨FSTree.dir nm s cs, d, pcv, ccv⟩)
              0 0 (dirItems nm cs)
          ++ [Event.closeTar, Event.clockRead t1]
          ++ (if (effectiveCb cca ccv).truthy then
                [Event.completedCall
                  (Archiver.total_files ⟨FSTree.dir nm s cs, d, pcv, ccv⟩)
                  (Archiver.total_bytes ⟨FSTree.dir nm s cs, d, pcv, ccv⟩)
                  (t1 - t0)]
              else [])
        dest := some ((dirItems nm cs).flatMap
          (fun it => (addPlan it.1 it.2).map dataize))
        err := Option.none
        files_added := (dirItems nm cs).length
        bytes_written := ((dirItems nm cs).map (fun it => it.2.stSize)).sum
        state := ⟨FSTree.dir nm s cs, d, pcv, ccv⟩ } := by
  have hitems : (dirItems nm cs).all planOk = true := (treeOk_iff nm s cs).mp hok
  simp only [Archiver.archive, hd, archiveLoop_snd, hitems, eq_self_iff_true,
    if_true]
  rw [archiveLoop_ok _ _ _ _ _ hitems]
  simp [List.append_assoc]

/-- Closed form of a successful `archive()` run on a readable single-file
source. -/
theorem archive_file_ok_shape (nm : String) (c : List Nat)
    (d : Dest) (pcv ccv pca cca : PyVal) (t0 t1 : Int)
    (hd : d.openable = true) :
    Archiver.archive ⟨FSTree.file nm c true, d, pcv, ccv⟩ pca cca t0 t1 =
      { events :=
          [Event.clockRead t0, Event.queryTotalFiles, Event.queryTotalBytes,
            Event.openTar]
          ++ [Event.addEntry [nm] (TarData.fileEntry c)]
          ++ (if (effectiveCb pca pcv).truthy then
                [Event.progressCall 1 0
                  (Archiver.total_files ⟨FSTree.file nm c true, d, pcv, ccv⟩)
                  (Archiver.total_bytes ⟨FSTree.file nm c true, d, pcv, ccv⟩)]
              else [])
          ++ [Event.closeTar, Event.clockRead t1]
          ++ (if (effectiveCb cca ccv).truthy then
                [Event.completedCall
                  (Archiver.total_files ⟨FSTree.file nm c true, d, pcv, ccv⟩)
                  (Archiver.total_bytes ⟨FSTree.file nm c true, d, pcv, ccv⟩)
                  (t1 - t0)]
              else [])
        dest := some [([nm], TarData.fileEntry c)]
        err := Option.none
        files_added := 1
        bytes_written := 0
        state := ⟨FSTree.file nm c true, d, pcv, ccv⟩ } := by
  simp only [Archiver.archive, hd, eq_self_iff_true, if_true]

/-- Claim C10: for every invocation of `archive()`, regardless of the
per-call callback arguments passed, the stored fields `source`,
`destination`, `progress_callback` and `completed_callback` are unchanged
after the call — per-call overrides rebind only locals of `archive()`. -/
theorem C10_instance_fields_unchanged (a : Archiver) (pca cca : PyVal)
    (t0 t1 : Int) :
    (a.archive pca cca t0 t1).state.source = a.source ∧
    (a.archive pca cca t0 t1).state.destination = a.destination ∧
    (a.archive pca cca t0 t1).state.progress_callback = a.progress_callback ∧
    (a.archive pca cca t0 t1).state.completed_callback = a.completed_callback := by
  rw [archive_state]
  exact ⟨rfl, rfl, rfl, rfl⟩

/-- Claim C1: for every directory source whose tree is unmodified (and
readable) during the run, the number of progress-callback invocations made
by `archive()` equals `total_files`, the count of all entries found by a
fresh recursive traversal; for an empty directory `total_files` is 0, there
are zero progress invocations, and the completion callback still fires. -/
theorem C1_progress_count_equals_total_files (nm : String) (s : Nat)
    (cs : List FSTree) (d : Dest) (pcv ccv pca cca : PyVal) (t0 t1 : Int)
    (hok : treeOk (FSTree.dir nm s cs) = true)
    (hd : d.openable = true)
    (hpc : (effectiveCb pca pcv).truthy = true)
    (hcc : (effectiveCb cca ccv).truthy = true) :
    countProgress (Archiver.archive ⟨FSTree.dir nm s cs, d, pcv, ccv⟩ pca cca t0 t1).events =
      Archiver.total_files ⟨FSTree.dir nm s cs, d, pcv, ccv⟩ ∧
    (cs = [] →
      Archiver.total_files ⟨FSTree.dir nm s cs, d, pcv, ccv⟩ = 0 ∧
      countProgress (Archiver.archive ⟨FSTree.dir nm s cs, d, pcv, ccv⟩ pca cca t0 t1).events = 0) ∧
    countCompleted (Archiver.archive ⟨FSTree.dir nm s cs, d, pcv, ccv⟩ pca cca t0 t1).events = 1 := by
  have hmain : countProgress (Archiver.archive ⟨FSTree.dir nm s cs, d, pcv, ccv⟩ pca cca t0 t1).events =
      Archiver.total_files ⟨FSTree.dir nm s cs, d, pcv, ccv⟩ := by
    rw [archive_dir_ok_shape nm s cs d pcv ccv pca cca t0 t1 hd hok]
    dsimp only
    rw [countProgress_append, countProgress_append, countProgress_append,
      loopEvents_countProgress, hpc, hcc]
    simp [countProgress, List.countP_cons, Event.isProgress, dirItems,
      Archiver.total_files]
  have hcomp : countCompleted (Archiver.archive ⟨FSTree.dir nm s cs, d, pcv, ccv⟩ pca cca t0 t1).events = 1 := by
    rw [archive_dir_ok_shape nm s cs d pcv ccv pca cca t0 t1 hd hok]
    dsimp only
    rw [countCompleted_append, countCompleted_append, countCompleted_append,
      loopEvents_countCompleted, hcc]
    simp [countCompleted, List.countP_cons, Event.isCompleted]
  refine ⟨hmain, fun hcs => ?_, hcomp⟩
  subst hcs
  have htf : Archiver.total_files ⟨FSTree.dir nm s [], d, pcv, ccv⟩ = 0 := by
    simp [Archiver.total_files, entriesList]
  exact ⟨htf, by rw [hmain, htf]⟩

/-- Witness for C1 at a concrete input: archiving an empty directory with
both callbacks present makes zero progress calls and one completion call. -/
theorem C1_progress_count_equals_total_files_witness :
    treeOk (FSTree.dir "s" 0 []) = true ∧
    (countProgress (Archiver.archive ⟨FSTree.dir "s" 0 [], ⟨"d.tar", true⟩,
        PyVal.obj true true 0, PyVal.obj true true 1⟩ PyVal.none PyVal.none 0 1).events =
      Archiver.total_files ⟨FSTree.dir "s" 0 [], ⟨"d.tar", true⟩,
        PyVal.obj true true 0, PyVal.obj true true 1⟩ ∧
    (([] : List FSTree) = [] →
      Archiver.total_files ⟨FSTree.dir "s" 0 [], ⟨"d.tar", true⟩,
        PyVal.obj true true 0, PyVal.obj true true 1⟩ = 0 ∧
      countProgress (Archiver.archive ⟨FSTree.dir "s" 0 [], ⟨"d.tar", true⟩,
        PyVal.obj true true 0, PyVal.obj true true 1⟩ PyVal.none PyVal.none 0 1).events = 0) ∧
    countCompleted (Archiver.archive ⟨FSTree.dir "s" 0 [], ⟨"d.tar", true⟩,
        PyVal.obj true true 0, PyVal.obj true true 1⟩ PyVal.none PyVal.none 0 1).events = 1) := by
  have hok : treeOk (FSTree.dir "s" 0 []) = true := by
    simp [treeOk, FSTree.entries, entriesList]
  exact ⟨hok, C1_progress_count_equals_total_files "s" 0 [] ⟨"d.tar", true⟩
    (PyVal.obj true true 0) (PyVal.obj true true 1) PyVal.none PyVal.none 0 1
    hok rfl rfl rfl⟩

/-- Counterexample for C3: `stat().st_size` of a directory is not 0 on real
filesystems, and the code sums it.  With a subdirectory whose stat size is
4096, `total_bytes` returns 4096, while the spec's words ("directories
contribute 0") give 0; `bytes_written` likewise ends at 4096. -/
theorem C3_counterexample_dir_stat_size :
    Archiver.total_bytes ⟨FSTree.dir "s" 0 [FSTree.dir "sub" 4096 []],
      ⟨"d.tar", true⟩, PyVal.none, PyVal.none⟩ = 4096 ∧
    specWordsTotalBytes (FSTree.dir "s" 0 [FSTree.dir "sub" 4096 []]) = 0 ∧
    (Archiver.archive ⟨FSTree.dir "s" 0 [FSTree.dir "sub" 4096 []],
      ⟨"d.tar", true⟩, PyVal.none, PyVal.none⟩ PyVal.none PyVal.none 0 1).bytes_written = 4096 := by
  refine ⟨?_, ?_, ?_⟩ <;>
    simp [Archiver.total_bytes, specWordsTotalBytes, specWordsEntrySize,
      entriesList, FSTree.stSize, Archiver.archive, Archiver.total_files,
      dirItems, archiveLoop, addSeq, addPlan, FSTree.entries, effectiveCb,
      PyVal.truthy]

/-- Claim C3 as amended: `total_bytes` returns the source's size for a file
source, and otherwise the sum of `stat().st_size` over all entries of a
fresh traversal, where a directory contributes its stat-reported size
(which need not be 0); during a readable directory run, `bytes_written`
accumulates exactly those per-entry stat sizes, ending at `total_bytes`. -/
theorem C3_amended_total_bytes (nm : String) (s : Nat) (cs : List FSTree)
    (fnm : String) (fc : List Nat) (fr : Bool)
    (d : Dest) (pcv ccv pca cca : PyVal) (t0 t1 : Int)
    (hok : treeOk (FSTree.dir nm s cs) = true)
    (hd : d.openable = true) :
    Archiver.total_bytes ⟨FSTree.file fnm fc fr, d, pcv, ccv⟩ = fc.length ∧
    Archiver.total_bytes ⟨FSTree.dir nm s cs, d, pcv, ccv⟩ =
      ((FSTree.dir nm s cs).entries.map (fun pe => pe.2.stSize)).sum ∧
    (Archiver.archive ⟨FSTree.dir nm s cs, d, pcv, ccv⟩ pca cca t0 t1).bytes_written =
      Archiver.total_bytes ⟨FSTree.dir nm s cs, d, pcv, ccv⟩ := by
  refine ⟨rfl, rfl, ?_⟩
  rw [archive_dir_ok_shape nm s cs d pcv ccv pca cca t0 t1 hd hok]
  simp [dirItems, List.map_map, Function.comp_def, Archiver.total_bytes,
    FSTree.entries]

/-- Witness for C3 (amended) at a concrete input: one file of 3 bytes and
one subdirectory of stat size 10 give `total_bytes` 13, and a run ends with
`bytes_written` 13. -/
theorem C3_amended_total_bytes_witness :
    treeOk (FSTree.dir "s" 0 [FSTree.file "a" [1, 2, 3] true, FSTree.dir "sub" 10 []]) = true ∧
    (Archiver.total_bytes ⟨FSTree.file "f" [9] false, ⟨"d.tar", true⟩, PyVal.none, PyVal.none⟩ =
      [9].length ∧
    Archiver.total_bytes ⟨FSTree.dir "s" 0 [FSTree.file "a" [1, 2, 3] true, FSTree.dir "sub" 10 []],
        ⟨"d.tar", true⟩, PyVal.none, PyVal.none⟩ =
      (((FSTree.dir "s" 0 [FSTree.file "a" [1, 2, 3] true, FSTree.dir "sub" 10 []]).entries).map
        (fun pe => pe.2.stSize)).sum ∧
    (Archiver.archive ⟨FSTree.dir "s" 0 [FSTree.file "a" [1, 2, 3] true, FSTree.dir "sub" 10 []],
        ⟨"d.tar", true⟩, PyVal.none, PyVal.none⟩ PyVal.none PyVal.none 0 1).bytes_written =
      Archiver.total_bytes ⟨FSTree.dir "s" 0 [FSTree.file "a" [1, 2, 3] true, FSTree.dir "sub" 10 []],
        ⟨"d.tar", true⟩, PyVal.none, PyVal.none⟩) := by
  have hok : treeOk (FSTree.dir "s" 0 [FSTree.file "a" [1, 2, 3] true, FSTree.dir "sub" 10 []]) = true := by
    simp [treeOk, FSTree.entries, entriesList, selfOk]
  exact ⟨hok, C3_amended_total_bytes "s" 0
    [FSTree.file "a" [1, 2, 3] true, FSTree.dir "sub" 10 []] "f" [9] false
    ⟨"d.tar", true⟩ PyVal.none PyVal.none PyVal.none PyVal.none 0 1 hok rfl⟩

/-- Claim C4: for a readable single-file source, `archive()` adds exactly
one entry named after the file, sets `files_added` to 1, leaves
`bytes_written` at 0, invokes the progress callback exactly once with those
values, and the completion callback reports `totalFiles` = 1. -/
theorem C4_single_file_run (nm : String) (c : List Nat) (d : Dest)
    (pcv ccv pca cca : PyVal) (t0 t1 : Int)
    (hd : d.openable = true)
    (hpc : (effectiveCb pca pcv).truthy = true)
    (hcc : (effectiveCb cca ccv).truthy = true) :
    (Archiver.archive ⟨FSTree.file nm c true, d, pcv, ccv⟩ pca cca t0 t1).dest =
      some [([nm], TarData.fileEntry c)] ∧
    (Archiver.archive ⟨FSTree.file nm c true, d, pcv, ccv⟩ pca cca t0 t1).files_added = 1 ∧
    (Archiver.archive ⟨FSTree.file nm c true, d, pcv, ccv⟩ pca cca t0 t1).bytes_written = 0 ∧
    (Archiver.archive ⟨FSTree.file nm c true, d, pcv, ccv⟩ pca cca t0 t1).events.filter
        (fun e => e.isProgress) = [Event.progressCall 1 0 1 c.length] ∧
    (Archiver.archive ⟨FSTree.file nm c true, d, pcv, ccv⟩ pca cca t0 t1).events.getLast? =
      some (Event.completedCall 1 c.length (t1 - t0)) := by
  rw [archive_file_ok_shape nm c d pcv ccv pca cca t0 t1 hd]
  refine ⟨rfl, rfl, rfl, ?_, ?_⟩
  · simp [hpc, hcc, List.filter_append, Event.isProgress, Archiver.total_files,
      Archiver.total_bytes]
  · simp [hpc, hcc, Archiver.total_files, Archiver.total_bytes]

/-- Witness for C4 at a concrete input: a 2-byte file with callbacks
present. -/
theorem C4_single_file_run_witness :
    (Archiver.archive ⟨FSTree.file "f.bin" [7, 8] true, ⟨"d.tar", true⟩,
      PyVal.obj true true 0, PyVal.obj true true 1⟩ PyVal.none PyVal.none 0 3).dest =
      some [(["f.bin"], TarData.fileEntry [7, 8])] ∧
    (Archiver.archive ⟨FSTree.file "f.bin" [7, 8] true, ⟨"d.tar", true⟩,
      PyVal.obj true true 0, PyVal.obj true true 1⟩ PyVal.none PyVal.none 0 3).files_added = 1 ∧
    (Archiver.archive ⟨FSTree.file "f.bin" [7, 8] true, ⟨"d.tar", true⟩,
      PyVal.obj true true 0, PyVal.obj true true 1⟩ PyVal.none PyVal.none 0 3).bytes_written = 0 ∧
    (Archiver.archive ⟨FSTree.file "f.bin" [7, 8] true, ⟨"d.tar", true⟩,
      PyVal.obj true true 0, PyVal.obj true true 1⟩ PyVal.none PyVal.none 0 3).events.filter
        (fun e => e.isProgress) = [Event.progressCall 1 0 1 [7, 8].length] ∧
    (Archiver.archive ⟨FSTree.file "f.bin" [7, 8] true, ⟨"d.tar", true⟩,
      PyVal.obj true true 0, PyVal.obj true true 1⟩ PyVal.none PyVal.none 0 3).events.getLast? =
      some (Event.completedCall 1 [7, 8].length (3 - 0)) :=
  C4_single_file_run "f.bin" [7, 8] ⟨"d.tar", true⟩ (PyVal.obj true true 0)
    (PyVal.obj true true 1) PyVal.none PyVal.none 0 3 rfl rfl rfl

/-- Counterexample for C5: the claim says elapsed time is measured from
just before the write pass begins, but `start = time.time()` is read before
the `total_files` and `total_bytes` counting traversals — in this concrete
run no clock read is adjacent to the container opening; the two counting
queries stand between them. -/
theorem C5_counterexample_elapsed_before_counting :
    (Archiver.archive ⟨FSTree.dir "s" 0 [], ⟨"d.tar", true⟩, PyVal.none,
        PyVal.obj true true 0⟩ PyVal.none PyVal.none 0 5).events =
      [Event.clockRead 0, Event.queryTotalFiles, Event.queryTotalBytes,
        Event.openTar, Event.closeTar, Event.clockRead 5,
        Event.completedCall 0 0 5] ∧
    startJustBeforeOpen (Archiver.archive ⟨FSTree.dir "s" 0 [], ⟨"d.tar", true⟩,
        PyVal.none, PyVal.obj true true 0⟩ PyVal.none PyVal.none 0 5).events = false := by
  have h : (Archiver.archive ⟨FSTree.dir "s" 0 [], ⟨"d.tar", true⟩, PyVal.none,
      PyVal.obj true true 0⟩ PyVal.none PyVal.none 0 5).events =
      [Event.clockRead 0, Event.queryTotalFiles, Event.queryTotalBytes,
        Event.openTar, Event.closeTar, Event.clockRead 5,
        Event.completedCall 0 0 5] := by
    simp [Archiver.archive, Archiver.total_files, Archiver.total_bytes,
      dirItems, entriesList, archiveLoop, effectiveCb, PyVal.truthy]
  refine ⟨h, ?_⟩
  rw [h]
  rfl

/-- Claim C5 as amended: for every successful run with a completion
callback in effect, the completion callback fires exactly once, as the last
action, only after the container is closed, with `(total_files,
total_bytes, elapsed)` — where elapsed is measured from just before the
totals-counting traversals (which precede the write pass) to just after the
container is closed. -/
theorem C5_amended_completion_last_after_close (src : FSTree) (d : Dest)
    (pcv ccv pca cca : PyVal) (t0 t1 : Int)
    (hs : sourceOk src = true) (hd : d.openable = true)
    (hcc : (effectiveCb cca ccv).truthy = true) :
    (∃ pre, (Archiver.archive ⟨src, d, pcv, ccv⟩ pca cca t0 t1).events =
      pre ++ [Event.closeTar, Event.clockRead t1,
        Event.completedCall (Archiver.total_files ⟨src, d, pcv, ccv⟩)
          (Archiver.total_bytes ⟨src, d, pcv, ccv⟩) (t1 - t0)]) ∧
    countCompleted (Archiver.archive ⟨src, d, pcv, ccv⟩ pca cca t0 t1).events = 1 ∧
    (Archiver.archive ⟨src, d, pcv, ccv⟩ pca cca t0 t1).events.head? =
      some (Event.clockRead t0) := by
  cases src with
  | file fnm fc fr =>
    cases fr with
    | false => exact absurd hs (by simp [sourceOk])
    | true =>
      rw [archive_file_ok_shape fnm fc d pcv ccv pca cca t0 t1 hd]
      refine ⟨⟨[Event.clockRead t0, Event.queryTotalFiles, Event.queryTotalBytes,
          Event.openTar]
        ++ [Event.addEntry [fnm] (TarData.fileEntry fc)]
        ++ (if (effectiveCb pca pcv).truthy then
              [Event.progressCall 1 0
                (Archiver.total_files ⟨FSTree.file fnm fc true, d, pcv, ccv⟩)
                (Archiver.total_bytes ⟨FSTree.file fnm fc true, d, pcv, ccv⟩)]
            else []), ?_⟩, ?_, ?_⟩
      · simp [hcc, List.append_assoc]
      · rw [countCompleted_append, countCompleted_append, countCompleted_append,
          countCompleted_append, hcc]
        cases hpcv : (effectiveCb pca pcv).truthy <;>
          simp [countCompleted, List.countP_cons, Event.isCompleted]
      · cases hpcv : (effectiveCb pca pcv).truthy <;> simp [hcc]
  | dir nm s cs =>
    rw [archive_dir_ok_shape nm s cs d pcv ccv pca cca t0 t1 hd hs]
    refine ⟨⟨[Event.clockRead t0, Event.queryTotalFiles, Event.queryTotalBytes,
        Event.openTar]
      ++ loopEvents (effectiveCb pca pcv)
          (Archiver.total_files ⟨FSTree.dir nm s cs, d, pcv, ccv⟩)
          (Archiver.total_bytes ⟨FSTree.dir nm s cs, d, pcv, ccv⟩)
          0 0 (dirItems nm cs), ?_⟩, ?_, ?_⟩
    · simp [hcc, List.append_assoc]
    · rw [countCompleted_append, countCompleted_append, countCompleted_append,
        loopEvents_countCompleted, hcc]
      simp [countCompleted, List.countP_cons, Event.isCompleted]
    · simp [hcc]

/-- Witness for C5 (amended) at a concrete run: the empty-directory run with
a completion callback. -/
theorem C5_amended_completion_last_after_close_witness :
    sourceOk (FSTree.dir "s" 0 []) = true ∧
    ((∃ pre, (Archiver.archive ⟨FSTree.dir "s" 0 [], ⟨"d.tar", true⟩, PyVal.none,
        PyVal.obj true true 0⟩ PyVal.none PyVal.none 0 5).events =
      pre ++ [Event.closeTar, Event.clockRead 5,
        Event.completedCall
          (Archiver.total_files ⟨FSTree.dir "s" 0 [], ⟨"d.tar", true⟩, PyVal.none,
            PyVal.obj true true 0⟩)
          (Archiver.total_bytes ⟨FSTree.dir "s" 0 [], ⟨"d.tar", true⟩, PyVal.none,
            PyVal.obj true true 0⟩) (5 - 0)]) ∧
    countCompleted (Archiver.archive ⟨FSTree.dir "s" 0 [], ⟨"d.tar", true⟩, PyVal.none,
        PyVal.obj true true 0⟩ PyVal.none PyVal.none 0 5).events = 1 ∧
    (Archiver.archive ⟨FSTree.dir "s" 0 [], ⟨"d.tar", true⟩, PyVal.none,
        PyVal.obj true true 0⟩ PyVal.none PyVal.none 0 5).events.head? =
      some (Event.clockRead 0)) := by
  have hs : sourceOk (FSTree.dir "s" 0 []) = true := by
    simp [sourceOk, treeOk, FSTree.entries, entriesList]
  exact ⟨hs, C5_amended_completion_last_after_close (FSTree.dir "s" 0 [])
    ⟨"d.tar", true⟩ PyVal.none (PyVal.obj true true 0) PyVal.none PyVal.none
    0 5 hs rfl rfl⟩

/-- Claim C6: extracting the archive produced from a (readable) directory
source reproduces every original file at its relative path prefixed by the
source directory's own name, with its byte-for-byte content: each such file
is stored in the container under that name with that content. -/
theorem C6_roundtrip_reproduces_files (nm : String) (s : Nat)
    (cs : List FSTree) (d : Dest) (pcv ccv pca cca : PyVal) (t0 t1 : Int)
    (p : List String) (fnm : String) (c : List Nat) (rd : Bool)
    (hok : treeOk (FSTree.dir nm s cs) = true) (hd : d.openable = true)
    (hmem : (p, FSTree.file fnm c rd) ∈ (FSTree.dir nm s cs).entries) :
    ∃ ts,
      (Archiver.archive ⟨FSTree.dir nm s cs, d, pcv, ccv⟩ pca cca t0 t1).dest = some ts ∧
      (nm :: p, TarData.fileEntry c) ∈ ts := by
  rw [archive_dir_ok_shape nm s cs d pcv ccv pca cca t0 t1 hd hok]
  refine ⟨_, rfl, ?_⟩
  simp only [List.mem_flatMap]
  refine ⟨(nm :: p, FSTree.file fnm c rd), ?_, ?_⟩
  · simp only [dirItems, List.mem_map]
    exact ⟨(p, FSTree.file fnm c rd), hmem, rfl⟩
  · simp only [addPlan, List.map_cons, List.mem_cons]
    exact Or.inl rfl

/-- Witness for C6 at a concrete input: a directory with one 1-byte file. -/
theorem C6_roundtrip_reproduces_files_witness :
    treeOk (FSTree.dir "s" 0 [FSTree.file "a" [7] true]) = true ∧
    (["a"], FSTree.file "a" [7] true) ∈ (FSTree.dir "s" 0 [FSTree.file "a" [7] true]).entries ∧
    (∃ ts,
      (Archiver.archive ⟨FSTree.dir "s" 0 [FSTree.file "a" [7] true], ⟨"d.tar", true⟩,
        PyVal.none, PyVal.none⟩ PyVal.none PyVal.none 0 1).dest = some ts ∧
      ("s" :: ["a"], TarData.fileEntry [7]) ∈ ts) := by
  have hok : treeOk (FSTree.dir "s" 0 [FSTree.file "a" [7] true]) = true := by
    simp [treeOk, FSTree.entries, entriesList, selfOk]
  have hmem : (["a"], FSTree.file "a" [7] true) ∈
      (FSTree.dir "s" 0 [FSTree.file "a" [7] true]).entries := by
    simp [FSTree.entries, entriesList]
  exact ⟨hok, hmem, C6_roundtrip_reproduces_files "s" 0 [FSTree.file "a" [7] true]
    ⟨"d.tar", true⟩ PyVal.none PyVal.none PyVal.none PyVal.none 0 1
    ["a"] "a" [7] true hok rfl hmem⟩

/-- Claim C2: every entry archived from a directory source — also on runs
that later fail — is stored under the archive-internal name equal to its
path relative to the parent of the source directory (the source directory's
own name followed by the entry's relative path); a single-file source
stores exactly one entry under the file's base name with no directory
prefix. -/
theorem C2_arcnames_relative_to_parent (nm : String) (s : Nat)
    (cs : List FSTree) (fnm : String) (fc : List Nat) (d : Dest)
    (pcv ccv pca cca : PyVal) (t0 t1 : Int)
    (hd : d.openable = true) (ts : List TarEntry)
    (hts : (Archiver.archive ⟨FSTree.dir nm s cs, d, pcv, ccv⟩ pca cca t0 t1).dest = some ts) :
    (∀ t ∈ ts, ∃ p e, (p, e) ∈ (FSTree.dir nm s cs).entries ∧
      t = (nm :: p, FSTree.data e)) ∧
    (Archiver.archive ⟨FSTree.file fnm fc true, d, pcv, ccv⟩ pca cca t0 t1).dest =
      some [([fnm], TarData.fileEntry fc)] := by
  constructor
  · have hsub : ∀ t ∈ ts,
        ∃ it ∈ dirItems nm cs, ∃ su ∈ addPlan it.1 it.2, t = dataize su := by
      simp only [Archiver.archive, hd, eq_self_iff_true, if_true] at hts
      split at hts
      · simp only [Option.some.injEq] at hts
        subst hts
        intro t ht
        rcases archiveLoop_written_sub _ _ _ _ _ t ht with hnil | h
        · simp at hnil
        · exact h
      · simp only [Option.some.injEq] at hts
        subst hts
        intro t ht
        rcases archiveLoop_written_sub _ _ _ _ _ t ht with hnil | h
        · simp at hnil
        · exact h
    intro t ht
    obtain ⟨it, hit, su, hsu, hv⟩ := hsub t ht
    simp only [dirItems, List.mem_map] at hit
    obtain ⟨pe, hpe, rfl⟩ := hit
    simp only [addPlan, List.mem_cons, List.mem_map] at hsu
    rcases hsu with rfl | ⟨qf, hqf, rfl⟩
    · exact ⟨pe.1, pe.2, hpe, hv⟩
    · refine ⟨pe.1 ++ qf.1, qf.2,
        entriesList_trans cs pe.1 pe.2 hpe hqf, ?_⟩
      rw [hv]
      simp [dataize, List.cons_append]
  · rw [archive_file_ok_shape fnm fc d pcv ccv pca cca t0 t1 hd]

/-- Witness for C2 at a concrete input: a directory with a nested
subdirectory, and a single-file source. -/
theorem C2_arcnames_relative_to_parent_witness :
    (Archiver.archive ⟨FSTree.dir "s" 0 [FSTree.dir "sub" 6 [FSTree.file "b" [4] true]],
      ⟨"d.tar", true⟩, PyVal.none, PyVal.none⟩ PyVal.none PyVal.none 0 1).dest =
      some [(["s", "sub"], TarData.dirEntry),
        (["s", "sub", "b"], TarData.fileEntry [4]),
        (["s", "sub", "b"], TarData.fileEntry [4])] ∧
    ((∀ t ∈ [(["s", "sub"], TarData.dirEntry),
        (["s", "sub", "b"], TarData.fileEntry [4]),
        (["s", "sub", "b"], TarData.fileEntry [4])],
      ∃ p e, (p, e) ∈ (FSTree.dir "s" 0 [FSTree.dir "sub" 6 [FSTree.file "b" [4] true]]).entries ∧
        t = ("s" :: p, FSTree.data e)) ∧
    (Archiver.archive ⟨FSTree.file "f" [5] true, ⟨"d.tar", true⟩, PyVal.none, PyVal.none⟩
      PyVal.none PyVal.none 0 1).dest = some [(["f"], TarData.fileEntry [5])]) := by
  have hts : (Archiver.archive ⟨FSTree.dir "s" 0 [FSTree.dir "sub" 6 [FSTree.file "b" [4] true]],
      ⟨"d.tar", true⟩, PyVal.none, PyVal.none⟩ PyVal.none PyVal.none 0 1).dest =
      some [(["s", "sub"], TarData.dirEntry),
        (["s", "sub", "b"], TarData.fileEntry [4]),
        (["s", "sub", "b"], TarData.fileEntry [4])] := by
    simp [Archiver.archive, Archiver.total_files, Archiver.total_bytes, dirItems,
      entriesList, archiveLoop, addSeq, addPlan, FSTree.entries, effectiveCb,
      PyVal.truthy, dataize, FSTree.data, FSTree.stSize]
  exact ⟨hts, C2_arcnames_relative_to_parent "s" 0
    [FSTree.dir "sub" 6 [FSTree.file "b" [4] true]] "f" [5] ⟨"d.tar", true⟩
    PyVal.none PyVal.none PyVal.none PyVal.none 0 1 rfl _ hts⟩

/-- Claim C7: if an entry of the source cannot be read during the write
pass, `archive()` fails with `IOError` (no skip or retry), the container
handle is still closed as the last filesystem action (the `with` scoping),
the completion callback never fires, and the partially-written destination
file is left on disk. -/
theorem C7_entry_failure_aborts (src : FSTree) (d : Dest)
    (pcv ccv pca cca : PyVal) (t0 t1 : Int)
    (hd : d.openable = true)
    (hfail : sourceOk src = false) :
    (Archiver.archive ⟨src, d, pcv, ccv⟩ pca cca t0 t1).err =
      some RunError.ioError ∧
    (Archiver.archive ⟨src, d, pcv, ccv⟩ pca cca t0 t1).events.getLast? =
      some Event.closeTar ∧
    countCompleted (Archiver.archive ⟨src, d, pcv, ccv⟩ pca cca t0 t1).events = 0 ∧
    (∃ ts, (Archiver.archive ⟨src, d, pcv, ccv⟩ pca cca t0 t1).dest = some ts) := by
  cases src with
  | file fnm fc fr =>
    cases fr with
    | true => exact absurd hfail (by simp [sourceOk])
    | false =>
      simp only [Archiver.archive, hd, eq_self_iff_true, if_true,
        Bool.false_eq_true, if_false]
      exact ⟨by trivial, by trivial, by trivial, ⟨_, rfl⟩⟩
  | dir nm s cs =>
    have hfail2 : treeOk (FSTree.dir nm s cs) = false := hfail
    have hitems : (dirItems nm cs).all planOk = false := by
      rw [← Bool.not_eq_true]
      intro hall
      rw [(treeOk_iff nm s cs).mpr hall] at hfail2
      exact Bool.noConfusion hfail2
    simp only [Archiver.archive, hd, archiveLoop_snd, hitems, Bool.false_eq_true,
      if_false, if_true]
    refine ⟨trivial, List.getLast?_concat _, ?_, ⟨_, rfl⟩⟩
    rw [countCompleted_append, archiveLoop_countCompleted]
    rfl

/-- Witness for C7 at a concrete run: a directory with one unreadable
file. -/
theorem C7_entry_failure_aborts_witness :
    sourceOk (FSTree.dir "s" 0 [FSTree.file "f" [1] false]) = false ∧
    ((Archiver.archive ⟨FSTree.dir "s" 0 [FSTree.file "f" [1] false], ⟨"d.tar", true⟩,
      PyVal.obj true true 0, PyVal.obj true true 1⟩ PyVal.none PyVal.none 0 5).err =
      some RunError.ioError ∧
    (Archiver.archive ⟨FSTree.dir "s" 0 [FSTree.file "f" [1] false], ⟨"d.tar", true⟩,
      PyVal.obj true true 0, PyVal.obj true true 1⟩ PyVal.none PyVal.none 0 5).events.getLast? =
      some Event.closeTar ∧
    countCompleted (Archiver.archive ⟨FSTree.dir "s" 0 [FSTree.file "f" [1] false],
      ⟨"d.tar", true⟩, PyVal.obj true true 0, PyVal.obj true true 1⟩
      PyVal.none PyVal.none 0 5).events = 0 ∧
    (∃ ts, (Archiver.archive ⟨FSTree.dir "s" 0 [FSTree.file "f" [1] false], ⟨"d.tar", true⟩,
      PyVal.obj true true 0, PyVal.obj true true 1⟩ PyVal.none PyVal.none 0 5).dest = some ts)) := by
  have hfail : sourceOk (FSTree.dir "s" 0 [FSTree.file "f" [1] false]) = false := by
    simp [sourceOk, treeOk, FSTree.entries, entriesList, selfOk]
  exact ⟨hfail, C7_entry_failure_aborts (FSTree.dir "s" 0 [FSTree.file "f" [1] false])
    ⟨"d.tar", true⟩ (PyVal.obj true true 0) (PyVal.obj true true 1)
    PyVal.none PyVal.none 0 5 rfl hfail⟩

/-- Counterexample for C8: the constructor validates callbacks with Python
truthiness (`if progress_callback and not callable(progress_callback)`), so
the falsy non-callable value `0` — non-absent and not invocable — is
accepted and stored, and the Archiver is created. -/
theorem C8_counterexample_falsy_noncallable :
    PyVal.obj false false 0 ≠ PyVal.none ∧
    (PyVal.obj false false 0).invocable = false ∧
    Archiver.init (some (FSTree.file "f" [] true)) Option.none
        (PyVal.obj false false 0) PyVal.none =
      Except.ok ⟨FSTree.file "f" [] true, default_destination (FSTree.file "f" [] true),
        PyVal.obj false false 0, PyVal.none⟩ := by
  refine ⟨by decide, rfl, rfl⟩

/-- Claim C8 as amended: for an existing source, construction fails with
`TypeError` exactly when a supplied callback value is truthy and not
invocable; falsy non-callable values (such as `0`, `""` or `False`) pass
the check and are stored. -/
theorem C8_amended_typeerror_iff_truthy_noncallable (src : FSTree)
    (dst : Option Dest) (pc cc : PyVal) :
    Archiver.init (some src) dst pc cc = Except.error InitError.typeError ↔
      ((pc.truthy = true ∧ pc.invocable = false) ∨
        (cc.truthy = true ∧ cc.invocable = false)) := by
  simp only [Archiver.init]
  cases hp : pc.truthy <;> cases hip : pc.invocable <;>
    cases hc : cc.truthy <;> cases hic : cc.invocable <;> simp

/-- Witness for C8 (amended) at a concrete input: a truthy non-callable
value is rejected with `TypeError`. -/
theorem C8_amended_typeerror_iff_truthy_noncallable_witness :
    Archiver.init (some (FSTree.file "f" [] true)) Option.none
        (PyVal.obj true false 0) PyVal.none =
      Except.error InitError.typeError :=
  (C8_amended_typeerror_iff_truthy_noncallable (FSTree.file "f" [] true)
    Option.none (PyVal.obj true false 0) PyVal.none).mpr (Or.inl ⟨rfl, rfl⟩)

/-- Claim C9: construction fails with `FileNotFoundError` (NotFound) when
the resolved source path does not exist — before anything is written, the
constructor being a pure function with no filesystem-write effect — while a
destination with a missing parent directory is not detected at
construction: the Archiver is created, and the later `archive()` call
raises `IOError` at `tarfile.open`, after the counting traversals but
before opening, adding or completing anything. -/
theorem C9_notfound_at_init_ioerror_at_archive (src : FSTree) (d : Dest)
    (pc cc pca cca : PyVal) (t0 t1 : Int)
    (hpc : pc.truthy = true → pc.invocable = true)
    (hcc : cc.truthy = true → cc.invocable = true)
    (hd : d.openable = false) :
    Archiver.init Option.none (some d) pc cc = Except.error InitError.fileNotFound ∧
    (∃ a, Archiver.init (some src) (some d) pc cc = Except.ok a ∧
      (a.archive pca cca t0 t1).err = some RunError.ioError ∧
      (a.archive pca cca t0 t1).dest = Option.none ∧
      (a.archive pca cca t0 t1).events =
        [Event.clockRead t0, Event.queryTotalFiles, Event.queryTotalBytes]) := by
  have h1 : (pc.truthy && !pc.invocable) = false := by
    cases h : pc.truthy
    · simp
    · simp [hpc h]
  have h2 : (cc.truthy && !cc.invocable) = false := by
    cases h : cc.truthy
    · simp
    · simp [hcc h]
  refine ⟨rfl, ⟨⟨src, d, pc, cc⟩, ?_, ?_, ?_, ?_⟩⟩
  · simp [Archiver.init, h1, h2]
  · simp [Archiver.archive, hd]
  · simp [Archiver.archive, hd]
  · simp [Archiver.archive, hd]

/-- Witness for C9 at a concrete input: missing source on one hand, a
destination that cannot be opened on the other. -/
theorem C9_notfound_at_init_ioerror_at_archive_witness :
    Archiver.init Option.none (some ⟨"nope/d.tar", false⟩) PyVal.none PyVal.none =
      Except.error InitError.fileNotFound ∧
    (∃ a, Archiver.init (some (FSTree.file "f" [3] true)) (some ⟨"nope/d.tar", false⟩)
        PyVal.none PyVal.none = Except.ok a ∧
      (a.archive PyVal.none PyVal.none 0 2).err = some RunError.ioError ∧
      (a.archive PyVal.none PyVal.none 0 2).dest = Option.none ∧
      (a.archive PyVal.none PyVal.none 0 2).events =
        [Event.clockRead 0, Event.queryTotalFiles, Event.queryTotalBytes]) :=
  C9_notfound_at_init_ioerror_at_archive (FSTree.file "f" [3] true)
    ⟨"nope/d.tar", false⟩ PyVal.none PyVal.none PyVal.none PyVal.none 0 2
    (fun h => Bool.noConfusion h) (fun h => Bool.noConfusion h) rfl

end TarBackup
